import Mathlib

/-!
Verification of the lexical scanner in `src/lexer/lexer.rs`
(repository `ElCapitanSponge/interpreter-in-rust`).

The Rust lexer is shallowly embedded: the input is a byte buffer
(modelled as `List Nat`, each element a byte value), the cursor state is
the `Lexer` structure, and every Rust method becomes a pure Lean
function on that structure.  The `while` loops of `skip_whitespace`,
`read_ident` and `read_int` become well-founded recursive functions.
`next_token` returns `Option (Except Unit TokenType × Lexer)`: the
`Except Unit` layer models the `anyhow::Result` return channel (whose
error case the code never constructs), and `none` models the
`unreachable!` panic that aborts the process on an unrecognized byte.
-/

set_option maxHeartbeats 1000000

namespace InterpLexer

/-- Token kinds, mirroring `enum TokenType` in `src/lexer/lexer.rs`.
`Ident` and `Int` carry the matched text.  The Rust code produces that
text with `String::from_utf8_lossy` on the matched byte slice; the
scanning loops only ever match ASCII letter/underscore resp. ASCII
digit bytes, on which lossy decoding is the identity, so the carried
text is modelled as the byte list itself. -/
inductive TokenType where
  | Ident (s : List Nat)
  | Int (s : List Nat)
  | Illegal
  | Eof
  | Assign
  | Bang
  | Dash
  | ForwardSlash
  | Asterisk
  | Equal
  | NotEqual
  | LessThan
  | GreaterThan
  | Plus
  | Comma
  | Semicolon
  | Lparen
  | Rparen
  | LSquirly
  | RSquirly
  | Function
  | Let
  | If
  | Else
  | Return
  | True
  | False
  deriving DecidableEq, Repr

/-- The scanner state, mirroring `struct Lexer`: the owned input byte
buffer and the cursor fields `position`, `read_position`, `ch`. -/
@[ext]
structure Lexer where
  input : List Nat
  position : Nat
  read_position : Nat
  ch : Nat
  deriving DecidableEq, Repr

/-- Rust `u8::is_ascii_whitespace`: space (32), horizontal tab (9),
line feed (10), form feed (12), carriage return (13). -/
def is_ascii_whitespace (c : Nat) : Bool :=
  decide (c = 9 ∨ c = 10 ∨ c = 12 ∨ c = 13 ∨ c = 32)

/-- Rust `u8::is_ascii_alphabetic`: the ranges `A`-`Z` and `a`-`z`. -/
def is_ascii_alphabetic (c : Nat) : Bool :=
  decide ((65 ≤ c ∧ c ≤ 90) ∨ (97 ≤ c ∧ c ≤ 122))

/-- Rust `u8::is_ascii_digit`: the range `0`-`9`. -/
def is_ascii_digit (c : Nat) : Bool :=
  decide (48 ≤ c ∧ c ≤ 57)

/-- The byte class used both by the match arm
`b'a'..=b'z' | b'A'..=b'Z' | b'_'` of `next_token` and by the loop
condition `self.ch.is_ascii_alphabetic() || self.ch == b'_'` of
`read_ident` (95 is `b'_'`). -/
def is_ident_char (c : Nat) : Bool :=
  is_ascii_alphabetic c || decide (c = 95)

/-- Rust `Lexer::read_char`: load `input[read_position]` (or the
sentinel 0 when out of bounds) into `ch`, then advance the cursor. -/
def read_char (l : Lexer) : Lexer :=
  { l with
    ch := if l.read_position < l.input.length then l.input.getD l.read_position 0 else 0
    position := l.read_position
    read_position := l.read_position + 1 }

/-- Rust `Lexer::new`: zero-initialised cursor followed by the priming
`read_char`. -/
def Lexer.new (input : List Nat) : Lexer :=
  read_char { input := input, position := 0, read_position := 0, ch := 0 }

/-- Rust `Lexer::peek`: the byte at `read_position`, or 0 when out of
bounds; does not touch the cursor. -/
def peek (l : Lexer) : Nat :=
  if l.input.length ≤ l.read_position then 0 else l.input.getD l.read_position 0

/-- Rust `Lexer::skip_whitespace`:
`while self.ch.is_ascii_whitespace() { self.read_char(); }`. -/
def skip_whitespace (l : Lexer) : Lexer :=
  if is_ascii_whitespace l.ch then skip_whitespace (read_char l) else l
termination_by l.input.length + 1 - l.read_position +
  (if is_ascii_whitespace l.ch then 1 else 0)
decreasing_by
  rename_i h
  simp only [read_char, h, if_true]
  by_cases hb : l.read_position < l.input.length
  · have h1 : (if is_ascii_whitespace (l.input.getD l.read_position 0) then 1 else 0) ≤ 1 := by
      split <;> omega
    simp only [hb, if_true]
    omega
  · simp only [hb, if_false]
    have h0 : is_ascii_whitespace 0 = false := by decide
    simp only [h0, Bool.false_eq_true, if_false]
    omega

/-- The `while` loop of Rust `Lexer::read_ident`:
`while self.ch.is_ascii_alphabetic() || self.ch == b'_' { self.read_char(); }`. -/
def read_ident_loop (l : Lexer) : Lexer :=
  if is_ident_char l.ch then read_ident_loop (read_char l) else l
termination_by l.input.length + 1 - l.read_position +
  (if is_ident_char l.ch then 1 else 0)
decreasing_by
  rename_i h
  simp only [read_char, h, if_true]
  by_cases hb : l.read_position < l.input.length
  · have h1 : (if is_ident_char (l.input.getD l.read_position 0) then 1 else 0) ≤ 1 := by
      split <;> omega
    simp only [hb, if_true]
    omega
  · simp only [hb, if_false]
    have h0 : is_ident_char 0 = false := by decide
    simp only [h0, Bool.false_eq_true, if_false]
    omega

/-- Rust `Lexer::read_ident`: capture `pos = self.position`, run the
loop, return the slice `input[pos..self.position]` together with the
new state. -/
def read_ident (l : Lexer) : List Nat × Lexer :=
  let l2 := read_ident_loop l
  ((l2.input.take l2.position).drop l.position, l2)

/-- The `while` loop of Rust `Lexer::read_int`:
`while self.ch.is_ascii_digit() { self.read_char(); }`. -/
def read_int_loop (l : Lexer) : Lexer :=
  if is_ascii_digit l.ch then read_int_loop (read_char l) else l
termination_by l.input.length + 1 - l.read_position +
  (if is_ascii_digit l.ch then 1 else 0)
decreasing_by
  rename_i h
  simp only [read_char, h, if_true]
  by_cases hb : l.read_position < l.input.length
  · have h1 : (if is_ascii_digit (l.input.getD l.read_position 0) then 1 else 0) ≤ 1 := by
      split <;> omega
    simp only [hb, if_true]
    omega
  · simp only [hb, if_false]
    have h0 : is_ascii_digit 0 = false := by decide
    simp only [h0, Bool.false_eq_true, if_false]
    omega

/-- Rust `Lexer::read_int`: capture `pos = self.position`, run the
loop, return the slice `input[pos..self.position]` with the new state. -/
def read_int (l : Lexer) : List Nat × Lexer :=
  let l2 := read_int_loop l
  ((l2.input.take l2.position).drop l.position, l2)

/-- The keyword table of `next_token` (the `match ident.as_str()`
inside the letter/underscore arm), in source order: `fn`, `let`, `if`,
`false`, `true`, `return`, `else`; anything else is an identifier.
The keyword spellings are given as ASCII byte lists. -/
def lookup_ident (s : List Nat) : TokenType :=
  if s = [102, 110] then TokenType.Function
  else if s = [108, 101, 116] then TokenType.Let
  else if s = [105, 102] then TokenType.If
  else if s = [102, 97, 108, 115, 101] then TokenType.False
  else if s = [116, 114, 117, 101] then TokenType.True
  else if s = [114, 101, 116, 117, 114, 110] then TokenType.Return
  else if s = [101, 108, 115, 101] then TokenType.Else
  else TokenType.Ident s

/-- Rust `Lexer::next_token`.  The byte literals follow the source's
match arms in order: `{ } ( ) , ; + -`, `!` (with `=` lookahead),
`> < * /`, `=` (with `=` lookahead), letters/underscore, digits, the 0
sentinel.  Branches that fall through the match do the trailing
`self.read_char()`; the identifier/integer arms `return` early.  The
`unreachable!` arm — a process abort — is modelled as `none`; every
value the function actually returns is built with `Ok`, modelled as
`Except.ok`. -/
def next_token (l0 : Lexer) : Option (Except Unit TokenType × Lexer) :=
  let l := skip_whitespace l0
  if l.ch = 123 then some (Except.ok TokenType.LSquirly, read_char l)
  else if l.ch = 125 then some (Except.ok TokenType.RSquirly, read_char l)
  else if l.ch = 40 then some (Except.ok TokenType.Lparen, read_char l)
  else if l.ch = 41 then some (Except.ok TokenType.Rparen, read_char l)
  else if l.ch = 44 then some (Except.ok TokenType.Comma, read_char l)
  else if l.ch = 59 then some (Except.ok TokenType.Semicolon, read_char l)
  else if l.ch = 43 then some (Except.ok TokenType.Plus, read_char l)
  else if l.ch = 45 then some (Except.ok TokenType.Dash, read_char l)
  else if l.ch = 33 then
    (if peek l = 61 then some (Except.ok TokenType.NotEqual, read_char (read_char l))
     else some (Except.ok TokenType.Bang, read_char l))
  else if l.ch = 62 then some (Except.ok TokenType.GreaterThan, read_char l)
  else if l.ch = 60 then some (Except.ok TokenType.LessThan, read_char l)
  else if l.ch = 42 then some (Except.ok TokenType.Asterisk, read_char l)
  else if l.ch = 47 then some (Except.ok TokenType.ForwardSlash, read_char l)
  else if l.ch = 61 then
    (if peek l = 61 then some (Except.ok TokenType.Equal, read_char (read_char l))
     else some (Except.ok TokenType.Assign, read_char l))
  else if is_ident_char l.ch then
    some (Except.ok (lookup_ident (read_ident l).1), (read_ident l).2)
  else if is_ascii_digit l.ch then
    some (Except.ok (TokenType.Int (read_int l).1), (read_int l).2)
  else if l.ch = 0 then some (Except.ok TokenType.Eof, read_char l)
  else none

/-- The byte classes `next_token` dispatches on (excluding the 0
sentinel): whitespace, the structural/operator bytes, ASCII
letters/underscore, ASCII digits.  Every other byte hits the
`unreachable!` arm. -/
def recognized (c : Nat) : Bool :=
  is_ascii_whitespace c ||
    decide (c = 123 ∨ c = 125 ∨ c = 40 ∨ c = 41 ∨ c = 44 ∨ c = 59 ∨ c = 43 ∨
      c = 45 ∨ c = 33 ∨ c = 62 ∨ c = 60 ∨ c = 42 ∨ c = 47 ∨ c = 61) ||
    is_ident_char c || is_ascii_digit c

/-- The stream of results a consumer making `n` calls sees; `none`
marks the call on which the process aborts (nothing follows it). -/
def tokenize : Nat → Lexer → List (Option (Except Unit TokenType))
  | 0, _ => []
  | n + 1, l =>
    match next_token l with
    | none => [none]
    | some (r, l2) => some r :: tokenize n l2

/-- The result of the `(n+1)`-st `next_token` call, or `none` when any
of the first `n+1` calls aborts. -/
def nextTokenK : Nat → Lexer → Option (Except Unit TokenType × Lexer)
  | 0, l => next_token l
  | n + 1, l =>
    match next_token l with
    | none => none
    | some (_, l2) => nextTokenK n l2

/-- The byte the cursor logically rests on at index `i`: `input[i]`
in bounds, otherwise the end sentinel 0. -/
def chAt (input : List Nat) (i : Nat) : Nat :=
  if i < input.length then input.getD i 0 else 0

/-- Cursor consistency: `read_position` is one past `position` and
`ch` is the byte at `position` (or the sentinel).  Holds after the
priming `read_char` of `Lexer::new` and is preserved by every
operation. -/
def WF (l : Lexer) : Prop :=
  l.read_position = l.position + 1 ∧ l.ch = chAt l.input l.position

instance (l : Lexer) : Decidable (WF l) :=
  inferInstanceAs (Decidable (l.read_position = l.position + 1 ∧ l.ch = chAt l.input l.position))

/-! ### Basic cursor lemmas -/

theorem read_char_input (l : Lexer) : (read_char l).input = l.input := rfl

theorem read_char_WF (l : Lexer) : WF (read_char l) :=
  ⟨rfl, rfl⟩

theorem WF_new (input : List Nat) : WF (Lexer.new input) :=
  read_char_WF _

theorem skip_whitespace_eq (l : Lexer) :
    skip_whitespace l = if is_ascii_whitespace l.ch then skip_whitespace (read_char l) else l := by
  conv_lhs => rw [skip_whitespace]

theorem read_ident_loop_eq (l : Lexer) :
    read_ident_loop l = if is_ident_char l.ch then read_ident_loop (read_char l) else l := by
  conv_lhs => rw [read_ident_loop]

theorem read_int_loop_eq (l : Lexer) :
    read_int_loop l = if is_ascii_digit l.ch then read_int_loop (read_char l) else l := by
  conv_lhs => rw [read_int_loop]

/-- A loop of the shape `while p(ch) { read_char() }`, run from a
consistent cursor, lands exactly past the maximal run of
`p`-satisfying bytes that starts at `position`. -/
theorem scan_loop_spec (p : Nat → Bool) (f : Lexer → Lexer) (hp0 : p 0 = false)
    (hf : ∀ l', f l' = if p l'.ch then f (read_char l') else l')
    (l : Lexer) (hwf : WF l) :
    f l = { input := l.input,
            position := l.position + ((l.input.drop l.position).takeWhile p).length,
            read_position := l.position + ((l.input.drop l.position).takeWhile p).length + 1,
            ch := chAt l.input (l.position + ((l.input.drop l.position).takeWhile p).length) } := by
  obtain ⟨hrp, hch⟩ := hwf
  by_cases hc : p l.ch = true
  · have hlt : l.position < l.input.length := by
      by_contra hge
      have h0 : l.ch = 0 := by rw [hch]; unfold chAt; rw [if_neg hge]
      rw [h0, hp0] at hc
      exact Bool.false_ne_true hc
    have hgd : l.ch = l.input[l.position] := by
      rw [hch]; unfold chAt; rw [if_pos hlt]; exact List.getD_eq_getElem _ _ hlt
    have htw : (l.input.drop l.position).takeWhile p
        = l.input[l.position] :: ((l.input.drop (l.position + 1)).takeWhile p) := by
      rw [List.drop_eq_getElem_cons hlt, List.takeWhile_cons_of_pos (hgd ▸ hc)]
    have ih := scan_loop_spec p f hp0 hf (read_char l) (read_char_WF l)
    rw [hf l, if_pos hc, ih]
    have hpos : (read_char l).position = l.position + 1 := by
      simp [read_char, hrp]
    rw [read_char_input, hpos, htw]
    simp only [List.length_cons]
    have harg : l.position + 1 + ((l.input.drop (l.position + 1)).takeWhile p).length
        = l.position + (((l.input.drop (l.position + 1)).takeWhile p).length + 1) := by omega
    apply Lexer.ext
    · rfl
    · dsimp only; omega
    · dsimp only; omega
    · dsimp only; rw [harg]
  · have ht : (l.input.drop l.position).takeWhile p = [] := by
      by_cases hlt : l.position < l.input.length
      · have hgd : l.ch = l.input[l.position] := by
          rw [hch]; unfold chAt; rw [if_pos hlt]; exact List.getD_eq_getElem _ _ hlt
        rw [List.drop_eq_getElem_cons hlt, List.takeWhile_cons_of_neg (hgd ▸ hc)]
      · rw [List.drop_eq_nil_of_le (Nat.le_of_not_lt hlt), List.takeWhile_nil]
    rw [hf l, if_neg hc, ht]
    simp only [List.length_nil, Nat.add_zero]
    apply Lexer.ext
    · rfl
    · rfl
    · dsimp only; exact hrp
    · dsimp only; exact hch
termination_by l.input.length - l.position
decreasing_by
  simp only [read_char, hrp]
  omega

/-- Instance of `scan_loop_spec` for `skip_whitespace`. -/
theorem skip_whitespace_spec (l : Lexer) (hwf : WF l) :
    skip_whitespace l
      = { input := l.input,
          position := l.position + ((l.input.drop l.position).takeWhile is_ascii_whitespace).length,
          read_position :=
            l.position + ((l.input.drop l.position).takeWhile is_ascii_whitespace).length + 1,
          ch := chAt l.input
            (l.position + ((l.input.drop l.position).takeWhile is_ascii_whitespace).length) } :=
  scan_loop_spec is_ascii_whitespace skip_whitespace (by decide) skip_whitespace_eq l hwf

/-- Instance of `scan_loop_spec` for the `read_ident` loop. -/
theorem read_ident_loop_spec (l : Lexer) (hwf : WF l) :
    read_ident_loop l
      = { input := l.input,
          position := l.position + ((l.input.drop l.position).takeWhile is_ident_char).length,
          read_position :=
            l.position + ((l.input.drop l.position).takeWhile is_ident_char).length + 1,
          ch := chAt l.input
            (l.position + ((l.input.drop l.position).takeWhile is_ident_char).length) } :=
  scan_loop_spec is_ident_char read_ident_loop (by decide) read_ident_loop_eq l hwf

/-- Instance of `scan_loop_spec` for the `read_int` loop. -/
theorem read_int_loop_spec (l : Lexer) (hwf : WF l) :
    read_int_loop l
      = { input := l.input,
          position := l.position + ((l.input.drop l.position).takeWhile is_ascii_digit).length,
          read_position :=
            l.position + ((l.input.drop l.position).takeWhile is_ascii_digit).length + 1,
          ch := chAt l.input
            (l.position + ((l.input.drop l.position).takeWhile is_ascii_digit).length) } :=
  scan_loop_spec is_ascii_digit read_int_loop (by decide) read_int_loop_eq l hwf

/-! ### takeWhile / slice helpers -/

theorem dropWhile_head_false (p : Nat → Bool) :
    ∀ (l : List Nat) (x : Nat) (xs : List Nat), l.dropWhile p = x :: xs → p x = false := by
  intro l
  induction l with
  | nil => intro x xs h; simp [List.dropWhile] at h
  | cons a t ih =>
    intro x xs h
    by_cases hpa : p a = true
    · rw [List.dropWhile_cons_of_pos hpa] at h
      exact ih x xs h
    · rw [List.dropWhile_cons_of_neg hpa] at h
      injection h with h1 h2
      subst h1
      exact Bool.eq_false_iff.mpr hpa

theorem take_length_takeWhile (p : Nat → Bool) (l : List Nat) :
    l.take (l.takeWhile p).length = l.takeWhile p :=
  (List.prefix_iff_eq_take.mp (List.takeWhile_prefix p)).symm

/-- The slice `input[pos .. pos + |run|]` is exactly the maximal
`p`-run starting at `pos`. -/
theorem slice_takeWhile (p : Nat → Bool) (input : List Nat) (pos : Nat) :
    (input.take (pos + ((input.drop pos).takeWhile p).length)).drop pos
      = (input.drop pos).takeWhile p := by
  rw [List.drop_take]
  have h : pos + ((input.drop pos).takeWhile p).length - pos
      = ((input.drop pos).takeWhile p).length := by omega
  rw [h]
  exact take_length_takeWhile p (input.drop pos)

/-- The byte just past the maximal `p`-run fails `p` (it is either a
failing input byte or the end sentinel). -/
theorem takeWhile_stop (p : Nat → Bool) (hp0 : p 0 = false) (input : List Nat) (pos : Nat) :
    p (chAt input (pos + ((input.drop pos).takeWhile p).length)) = false := by
  by_cases hlt : pos + ((input.drop pos).takeWhile p).length < input.length
  · have hch : chAt input (pos + ((input.drop pos).takeWhile p).length)
        = input[pos + ((input.drop pos).takeWhile p).length] := by
      unfold chAt; rw [if_pos hlt]; exact List.getD_eq_getElem _ _ hlt
    have h1 : (input.drop pos).drop ((input.drop pos).takeWhile p).length
        = input.drop (pos + ((input.drop pos).takeWhile p).length) :=
      List.drop_drop _ pos input
    have h2 : ((input.drop pos).takeWhile p ++ (input.drop pos).dropWhile p).drop
          ((input.drop pos).takeWhile p).length
        = (input.drop pos).dropWhile p := List.drop_left _ _
    rw [List.takeWhile_append_dropWhile] at h2
    have hdw : (input.drop pos).dropWhile p
        = input[pos + ((input.drop pos).takeWhile p).length]
            :: input.drop (pos + ((input.drop pos).takeWhile p).length + 1) := by
      rw [← h2, h1, List.drop_eq_getElem_cons hlt]
    rw [hch]
    exact dropWhile_head_false p _ _ _ hdw
  · have hch : chAt input (pos + ((input.drop pos).takeWhile p).length) = 0 := by
      unfold chAt; rw [if_neg hlt]
    rw [hch]
    exact hp0

/-! ### Derived facts about skip_whitespace, read_ident, read_int -/

theorem skip_whitespace_WF (l : Lexer) (hwf : WF l) : WF (skip_whitespace l) := by
  rw [skip_whitespace_spec l hwf]
  exact ⟨rfl, rfl⟩

theorem skip_whitespace_input (l : Lexer) (hwf : WF l) :
    (skip_whitespace l).input = l.input := by
  rw [skip_whitespace_spec l hwf]

theorem skip_whitespace_pos_ge (l : Lexer) (hwf : WF l) :
    l.position ≤ (skip_whitespace l).position := by
  rw [skip_whitespace_spec l hwf]
  dsimp only
  omega

theorem skip_whitespace_not_ws (l : Lexer) (hwf : WF l) :
    is_ascii_whitespace (skip_whitespace l).ch = false := by
  rw [skip_whitespace_spec l hwf]
  dsimp only
  exact takeWhile_stop is_ascii_whitespace (by decide) l.input l.position

theorem skip_whitespace_noop (l : Lexer) (h : is_ascii_whitespace l.ch = false) :
    skip_whitespace l = l := by
  rw [skip_whitespace_eq, h]
  simp

/-- `read_ident` on a consistent state returns the maximal
letter/underscore run starting at the cursor, and leaves the cursor
just past that run. -/
theorem read_ident_spec (l : Lexer) (hwf : WF l) :
    read_ident l
      = ((l.input.drop l.position).takeWhile is_ident_char,
         { input := l.input,
           position := l.position + ((l.input.drop l.position).takeWhile is_ident_char).length,
           read_position :=
             l.position + ((l.input.drop l.position).takeWhile is_ident_char).length + 1,
           ch := chAt l.input
             (l.position + ((l.input.drop l.position).takeWhile is_ident_char).length) }) := by
  simp only [read_ident]
  rw [read_ident_loop_spec l hwf]
  dsimp only
  rw [slice_takeWhile is_ident_char l.input l.position]

/-- `read_int` on a consistent state returns the maximal digit run
starting at the cursor, and leaves the cursor just past that run. -/
theorem read_int_spec (l : Lexer) (hwf : WF l) :
    read_int l
      = ((l.input.drop l.position).takeWhile is_ascii_digit,
         { input := l.input,
           position := l.position + ((l.input.drop l.position).takeWhile is_ascii_digit).length,
           read_position :=
             l.position + ((l.input.drop l.position).takeWhile is_ascii_digit).length + 1,
           ch := chAt l.input
             (l.position + ((l.input.drop l.position).takeWhile is_ascii_digit).length) }) := by
  simp only [read_int]
  rw [read_int_loop_spec l hwf]
  dsimp only
  rw [slice_takeWhile is_ascii_digit l.input l.position]

/-! ### Byte-class arithmetic characterizations -/

theorem is_ws_iff (c : Nat) :
    is_ascii_whitespace c = true ↔ (c = 9 ∨ c = 10 ∨ c = 12 ∨ c = 13 ∨ c = 32) := by
  simp [is_ascii_whitespace]

theorem is_ident_char_iff (c : Nat) :
    is_ident_char c = true ↔ ((65 ≤ c ∧ c ≤ 90) ∨ (97 ≤ c ∧ c ≤ 122) ∨ c = 95) := by
  simp only [is_ident_char, is_ascii_alphabetic, Bool.or_eq_true, decide_eq_true_eq]
  omega

theorem is_digit_iff (c : Nat) : is_ascii_digit c = true ↔ (48 ≤ c ∧ c ≤ 57) := by
  simp [is_ascii_digit]

theorem ws_eq_false (c : Nat) (h : ¬(c = 9 ∨ c = 10 ∨ c = 12 ∨ c = 13 ∨ c = 32)) :
    is_ascii_whitespace c = false :=
  Bool.eq_false_iff.mpr (fun hb => h ((is_ws_iff c).mp hb))

theorem identc_eq_false (c : Nat)
    (h : ¬((65 ≤ c ∧ c ≤ 90) ∨ (97 ≤ c ∧ c ≤ 122) ∨ c = 95)) :
    is_ident_char c = false :=
  Bool.eq_false_iff.mpr (fun hb => h ((is_ident_char_iff c).mp hb))

theorem digitc_eq_false (c : Nat) (h : ¬(48 ≤ c ∧ c ≤ 57)) : is_ascii_digit c = false :=
  Bool.eq_false_iff.mpr (fun hb => h ((is_digit_iff c).mp hb))

theorem recognized_iff (c : Nat) :
    recognized c = true ↔
      ((c = 9 ∨ c = 10 ∨ c = 12 ∨ c = 13 ∨ c = 32) ∨
        (c = 123 ∨ c = 125 ∨ c = 40 ∨ c = 41 ∨ c = 44 ∨ c = 59 ∨ c = 43 ∨ c = 45 ∨
          c = 33 ∨ c = 62 ∨ c = 60 ∨ c = 42 ∨ c = 47 ∨ c = 61) ∨
        ((65 ≤ c ∧ c ≤ 90) ∨ (97 ≤ c ∧ c ≤ 122) ∨ c = 95) ∨
        (48 ≤ c ∧ c ≤ 57)) := by
  simp only [recognized, is_ascii_whitespace, is_ident_char, is_ascii_alphabetic,
    is_ascii_digit, Bool.or_eq_true, decide_eq_true_eq]
  omega

/-! ### Branch lemmas for next_token -/

/-- The twelve plain single-character operator/structural arms. -/
theorem next_token_single (m : Lexer) (c : Nat) (tok : TokenType) (hch : m.ch = c)
    (hc : (c, tok) ∈ [(123, TokenType.LSquirly), (125, TokenType.RSquirly),
      (40, TokenType.Lparen), (41, TokenType.Rparen), (44, TokenType.Comma),
      (59, TokenType.Semicolon), (43, TokenType.Plus), (45, TokenType.Dash),
      (62, TokenType.GreaterThan), (60, TokenType.LessThan), (42, TokenType.Asterisk),
      (47, TokenType.ForwardSlash)]) :
    next_token m = some (Except.ok tok, read_char m) := by
  fin_cases hc <;>
    (have hws : is_ascii_whitespace m.ch = false := by rw [hch]; decide
     simp only [next_token]
     rw [skip_whitespace_noop m hws, hch]
     norm_num)

/-- The `!=` merge arm. -/
theorem next_token_noteq (m : Lexer) (hch : m.ch = 33) (hpk : peek m = 61) :
    next_token m = some (Except.ok TokenType.NotEqual, read_char (read_char m)) := by
  have hws : is_ascii_whitespace m.ch = false := by rw [hch]; decide
  simp only [next_token]
  rw [skip_whitespace_noop m hws, hch]
  norm_num [hpk]

/-- The bare `!` arm. -/
theorem next_token_bang (m : Lexer) (hch : m.ch = 33) (hpk : ¬ peek m = 61) :
    next_token m = some (Except.ok TokenType.Bang, read_char m) := by
  have hws : is_ascii_whitespace m.ch = false := by rw [hch]; decide
  simp only [next_token]
  rw [skip_whitespace_noop m hws, hch]
  norm_num
  exact fun hpe => absurd hpe hpk

/-- The `==` merge arm. -/
theorem next_token_equal (m : Lexer) (hch : m.ch = 61) (hpk : peek m = 61) :
    next_token m = some (Except.ok TokenType.Equal, read_char (read_char m)) := by
  have hws : is_ascii_whitespace m.ch = false := by rw [hch]; decide
  simp only [next_token]
  rw [skip_whitespace_noop m hws, hch]
  norm_num [hpk]

/-- The bare `=` arm. -/
theorem next_token_assign (m : Lexer) (hch : m.ch = 61) (hpk : ¬ peek m = 61) :
    next_token m = some (Except.ok TokenType.Assign, read_char m) := by
  have hws : is_ascii_whitespace m.ch = false := by rw [hch]; decide
  simp only [next_token]
  rw [skip_whitespace_noop m hws, hch]
  norm_num
  exact fun hpe => absurd hpe hpk

/-- The 0-sentinel arm (fires on any state whose current byte is 0). -/
theorem next_token_eof_ch (m : Lexer) (h0 : m.ch = 0) :
    next_token m = some (Except.ok TokenType.Eof, read_char m) := by
  have hws : is_ascii_whitespace m.ch = false := by rw [h0]; decide
  simp only [next_token]
  rw [skip_whitespace_noop m hws, h0]
  norm_num
  rw [if_neg (by decide : ¬ is_ident_char 0 = true), if_neg (by decide : ¬ is_ascii_digit 0 = true)]

/-- The letter/underscore arm. -/
theorem next_token_ident (m : Lexer) (hid : is_ident_char m.ch = true) :
    next_token m = some (Except.ok (lookup_ident (read_ident m).1), (read_ident m).2) := by
  have harith := (is_ident_char_iff m.ch).mp hid
  have hws : is_ascii_whitespace m.ch = false := ws_eq_false m.ch (by omega)
  simp only [next_token]
  rw [skip_whitespace_noop m hws]
  rw [if_neg (by omega : ¬ m.ch = 123), if_neg (by omega : ¬ m.ch = 125),
    if_neg (by omega : ¬ m.ch = 40), if_neg (by omega : ¬ m.ch = 41),
    if_neg (by omega : ¬ m.ch = 44), if_neg (by omega : ¬ m.ch = 59),
    if_neg (by omega : ¬ m.ch = 43), if_neg (by omega : ¬ m.ch = 45),
    if_neg (by omega : ¬ m.ch = 33), if_neg (by omega : ¬ m.ch = 62),
    if_neg (by omega : ¬ m.ch = 60), if_neg (by omega : ¬ m.ch = 42),
    if_neg (by omega : ¬ m.ch = 47), if_neg (by omega : ¬ m.ch = 61),
    if_pos hid]

/-- The digit arm. -/
theorem next_token_int (m : Lexer) (hdig : is_ascii_digit m.ch = true) :
    next_token m = some (Except.ok (TokenType.Int (read_int m).1), (read_int m).2) := by
  have harith := (is_digit_iff m.ch).mp hdig
  have hws : is_ascii_whitespace m.ch = false := ws_eq_false m.ch (by omega)
  have hid : is_ident_char m.ch = false := identc_eq_false m.ch (by omega)
  simp only [next_token]
  rw [skip_whitespace_noop m hws]
  rw [if_neg (by omega : ¬ m.ch = 123), if_neg (by omega : ¬ m.ch = 125),
    if_neg (by omega : ¬ m.ch = 40), if_neg (by omega : ¬ m.ch = 41),
    if_neg (by omega : ¬ m.ch = 44), if_neg (by omega : ¬ m.ch = 59),
    if_neg (by omega : ¬ m.ch = 43), if_neg (by omega : ¬ m.ch = 45),
    if_neg (by omega : ¬ m.ch = 33), if_neg (by omega : ¬ m.ch = 62),
    if_neg (by omega : ¬ m.ch = 60), if_neg (by omega : ¬ m.ch = 42),
    if_neg (by omega : ¬ m.ch = 47), if_neg (by omega : ¬ m.ch = 61),
    if_neg (by simp [hid]), if_pos hdig]

/-- The `unreachable!` arm: an unrecognized, non-sentinel byte aborts. -/
theorem next_token_illegal (m : Lexer) (hnr : recognized m.ch = false) (h0 : ¬ m.ch = 0) :
    next_token m = none := by
  have harith : ¬((m.ch = 9 ∨ m.ch = 10 ∨ m.ch = 12 ∨ m.ch = 13 ∨ m.ch = 32) ∨
      (m.ch = 123 ∨ m.ch = 125 ∨ m.ch = 40 ∨ m.ch = 41 ∨ m.ch = 44 ∨ m.ch = 59 ∨
        m.ch = 43 ∨ m.ch = 45 ∨ m.ch = 33 ∨ m.ch = 62 ∨ m.ch = 60 ∨ m.ch = 42 ∨
        m.ch = 47 ∨ m.ch = 61) ∨
      ((65 ≤ m.ch ∧ m.ch ≤ 90) ∨ (97 ≤ m.ch ∧ m.ch ≤ 122) ∨ m.ch = 95) ∨
      (48 ≤ m.ch ∧ m.ch ≤ 57)) :=
    fun hcon => Bool.false_ne_true (hnr ▸ (recognized_iff m.ch).mpr hcon)
  have hws : is_ascii_whitespace m.ch = false := ws_eq_false m.ch (by omega)
  have hid : is_ident_char m.ch = false := identc_eq_false m.ch (by omega)
  have hdig : is_ascii_digit m.ch = false := digitc_eq_false m.ch (by omega)
  simp only [next_token]
  rw [skip_whitespace_noop m hws]
  rw [if_neg (by omega : ¬ m.ch = 123), if_neg (by omega : ¬ m.ch = 125),
    if_neg (by omega : ¬ m.ch = 40), if_neg (by omega : ¬ m.ch = 41),
    if_neg (by omega : ¬ m.ch = 44), if_neg (by omega : ¬ m.ch = 59),
    if_neg (by omega : ¬ m.ch = 43), if_neg (by omega : ¬ m.ch = 45),
    if_neg (by omega : ¬ m.ch = 33), if_neg (by omega : ¬ m.ch = 62),
    if_neg (by omega : ¬ m.ch = 60), if_neg (by omega : ¬ m.ch = 42),
    if_neg (by omega : ¬ m.ch = 47), if_neg (by omega : ¬ m.ch = 61),
    if_neg (by simp [hid]), if_neg (by simp [hdig]), if_neg h0]

/-! ### Structure of successful next_token results -/

theorem lookup_ident_ne_eof (s : List Nat) : lookup_ident s ≠ TokenType.Eof := by
  unfold lookup_ident
  split_ifs <;> simp

theorem takeWhile_len_pos (p : Nat → Bool) (hp0 : p 0 = false) (l : Lexer) (hwf : WF l)
    (h : p l.ch = true) : 1 ≤ ((l.input.drop l.position).takeWhile p).length := by
  obtain ⟨hrp, hch⟩ := hwf
  have hlt : l.position < l.input.length := by
    by_contra hge
    have h0 : l.ch = 0 := by rw [hch]; unfold chAt; rw [if_neg hge]
    rw [h0, hp0] at h
    exact Bool.false_ne_true h
  have hgd : l.ch = l.input[l.position] := by
    rw [hch]; unfold chAt; rw [if_pos hlt]; exact List.getD_eq_getElem _ _ hlt
  rw [List.drop_eq_getElem_cons hlt, List.takeWhile_cons_of_pos (hgd ▸ h)]
  simp

/-- Closing step shared by the branches whose final state is one
`read_char`. -/
theorem progress_close_one (m : Lexer) (hrp : m.read_position = m.position + 1)
    (r : Except Unit TokenType) (l' : Lexer) (tok : TokenType)
    (himp : tok = TokenType.Eof → m.ch = 0)
    (h : some (Except.ok tok, read_char m) = some (r, l')) :
    (∃ t, r = Except.ok t) ∧ WF l' ∧ l'.input = m.input ∧ m.position < l'.position ∧
      (r = Except.ok TokenType.Eof → m.ch = 0) := by
  rw [Option.some.injEq, Prod.mk.injEq] at h
  obtain ⟨hr, hl⟩ := h
  subst hl
  refine ⟨⟨_, hr.symm⟩, read_char_WF m, rfl, by show m.position < m.read_position; omega, ?_⟩
  intro hre
  rw [← hr] at hre
  exact himp (Except.ok.inj hre)

/-- Closing step shared by the two-character merge branches. -/
theorem progress_close_two (m : Lexer) (hrp : m.read_position = m.position + 1)
    (r : Except Unit TokenType) (l' : Lexer) (tok : TokenType)
    (himp : tok = TokenType.Eof → m.ch = 0)
    (h : some (Except.ok tok, read_char (read_char m)) = some (r, l')) :
    (∃ t, r = Except.ok t) ∧ WF l' ∧ l'.input = m.input ∧ m.position < l'.position ∧
      (r = Except.ok TokenType.Eof → m.ch = 0) := by
  rw [Option.some.injEq, Prod.mk.injEq] at h
  obtain ⟨hr, hl⟩ := h
  subst hl
  refine ⟨⟨_, hr.symm⟩, read_char_WF (read_char m), rfl,
    by show m.position < m.read_position + 1; omega, ?_⟩
  intro hre
  rw [← hr] at hre
  exact himp (Except.ok.inj hre)

/-- Master case analysis: on a consistent state whose current byte is
not whitespace, a successful `next_token` call returns `Ok`, keeps the
buffer, keeps the cursor consistent, strictly advances it, and only
produces `Eof` from the sentinel byte 0. -/
theorem next_token_shape_nonws (m : Lexer) (hwf : WF m)
    (hws : is_ascii_whitespace m.ch = false) (r : Except Unit TokenType) (l' : Lexer)
    (h : next_token m = some (r, l')) :
    (∃ t, r = Except.ok t) ∧ WF l' ∧ l'.input = m.input ∧ m.position < l'.position ∧
      (r = Except.ok TokenType.Eof → m.ch = 0) := by
  obtain ⟨hrp, hch⟩ := hwf
  by_cases hid : is_ident_char m.ch = true
  · rw [next_token_ident m hid, read_ident_spec m ⟨hrp, hch⟩, Option.some.injEq,
      Prod.mk.injEq] at h
    obtain ⟨hr, hl⟩ := h
    subst hl
    refine ⟨⟨_, hr.symm⟩, ⟨rfl, rfl⟩, rfl, ?_, ?_⟩
    · have hlen := takeWhile_len_pos is_ident_char (by decide) m ⟨hrp, hch⟩ hid
      dsimp only
      omega
    · intro hre
      rw [← hr] at hre
      exact absurd (Except.ok.inj hre) (lookup_ident_ne_eof _)
  by_cases hdig : is_ascii_digit m.ch = true
  · rw [next_token_int m hdig, read_int_spec m ⟨hrp, hch⟩, Option.some.injEq,
      Prod.mk.injEq] at h
    obtain ⟨hr, hl⟩ := h
    subst hl
    refine ⟨⟨_, hr.symm⟩, ⟨rfl, rfl⟩, rfl, ?_, ?_⟩
    · have hlen := takeWhile_len_pos is_ascii_digit (by decide) m ⟨hrp, hch⟩ hdig
      dsimp only
      omega
    · intro hre
      rw [← hr] at hre
      exact absurd hre (by simp)
  by_cases h0 : m.ch = 0
  · exact progress_close_one m hrp r l' TokenType.Eof (fun _ => h0)
      ((next_token_eof_ch m h0).symm.trans h)
  by_cases hrec : recognized m.ch = true
  · have hws' : ¬(m.ch = 9 ∨ m.ch = 10 ∨ m.ch = 12 ∨ m.ch = 13 ∨ m.ch = 32) := by
      rw [← is_ws_iff]
      simp [hws]
    have hid' := hid
    rw [is_ident_char_iff] at hid'
    have hdig' := hdig
    rw [is_digit_iff] at hdig'
    have h1 := (recognized_iff m.ch).mp hrec
    have hlit : m.ch = 123 ∨ m.ch = 125 ∨ m.ch = 40 ∨ m.ch = 41 ∨ m.ch = 44 ∨
        m.ch = 59 ∨ m.ch = 43 ∨ m.ch = 45 ∨ m.ch = 33 ∨ m.ch = 62 ∨ m.ch = 60 ∨
        m.ch = 42 ∨ m.ch = 47 ∨ m.ch = 61 := by omega
    rcases hlit with hc | hc | hc | hc | hc | hc | hc | hc | hc | hc | hc | hc | hc | hc
    · exact progress_close_one m hrp r l' TokenType.LSquirly (fun hx => TokenType.noConfusion hx)
        ((next_token_single m 123 TokenType.LSquirly hc (by decide)).symm.trans h)
    · exact progress_close_one m hrp r l' TokenType.RSquirly (fun hx => TokenType.noConfusion hx)
        ((next_token_single m 125 TokenType.RSquirly hc (by decide)).symm.trans h)
    · exact progress_close_one m hrp r l' TokenType.Lparen (fun hx => TokenType.noConfusion hx)
        ((next_token_single m 40 TokenType.Lparen hc (by decide)).symm.trans h)
    · exact progress_close_one m hrp r l' TokenType.Rparen (fun hx => TokenType.noConfusion hx)
        ((next_token_single m 41 TokenType.Rparen hc (by decide)).symm.trans h)
    · exact progress_close_one m hrp r l' TokenType.Comma (fun hx => TokenType.noConfusion hx)
        ((next_token_single m 44 TokenType.Comma hc (by decide)).symm.trans h)
    · exact progress_close_one m hrp r l' TokenType.Semicolon (fun hx => TokenType.noConfusion hx)
        ((next_token_single m 59 TokenType.Semicolon hc (by decide)).symm.trans h)
    · exact progress_close_one m hrp r l' TokenType.Plus (fun hx => TokenType.noConfusion hx)
        ((next_token_single m 43 TokenType.Plus hc (by decide)).symm.trans h)
    · exact progress_close_one m hrp r l' TokenType.Dash (fun hx => TokenType.noConfusion hx)
        ((next_token_single m 45 TokenType.Dash hc (by decide)).symm.trans h)
    · by_cases hpk : peek m = 61
      · exact progress_close_two m hrp r l' TokenType.NotEqual (fun hx => TokenType.noConfusion hx)
          ((next_token_noteq m hc hpk).symm.trans h)
      · exact progress_close_one m hrp r l' TokenType.Bang (fun hx => TokenType.noConfusion hx)
          ((next_token_bang m hc hpk).symm.trans h)
    · exact progress_close_one m hrp r l' TokenType.GreaterThan (fun hx => TokenType.noConfusion hx)
        ((next_token_single m 62 TokenType.GreaterThan hc (by decide)).symm.trans h)
    · exact progress_close_one m hrp r l' TokenType.LessThan (fun hx => TokenType.noConfusion hx)
        ((next_token_single m 60 TokenType.LessThan hc (by decide)).symm.trans h)
    · exact progress_close_one m hrp r l' TokenType.Asterisk (fun hx => TokenType.noConfusion hx)
        ((next_token_single m 42 TokenType.Asterisk hc (by decide)).symm.trans h)
    · exact progress_close_one m hrp r l' TokenType.ForwardSlash (fun hx => TokenType.noConfusion hx)
        ((next_token_single m 47 TokenType.ForwardSlash hc (by decide)).symm.trans h)
    · by_cases hpk : peek m = 61
      · exact progress_close_two m hrp r l' TokenType.Equal (fun hx => TokenType.noConfusion hx)
          ((next_token_equal m hc hpk).symm.trans h)
      · exact progress_close_one m hrp r l' TokenType.Assign (fun hx => TokenType.noConfusion hx)
          ((next_token_assign m hc hpk).symm.trans h)
  · rw [next_token_illegal m (Bool.eq_false_iff.mpr hrec) h0] at h
    exact Option.noConfusion h

/-- `next_token` only looks at the whitespace-skipped state. -/
theorem next_token_skip (l : Lexer) (hwf : WF l) :
    next_token l = next_token (skip_whitespace l) := by
  simp only [next_token]
  rw [skip_whitespace_noop _ (skip_whitespace_not_ws l hwf)]

/-- Past the end of the buffer the scanner produces `Eof` and just
advances the cursor once more. -/
theorem next_token_eof_state (l : Lexer) (hwf : WF l) (hpos : l.input.length ≤ l.position) :
    next_token l = some (Except.ok TokenType.Eof, read_char l) := by
  have h0 : l.ch = 0 := by rw [hwf.2]; unfold chAt; rw [if_neg (by omega)]
  exact next_token_eof_ch l h0

/-- Every successful `next_token` call returns `Ok`, keeps the buffer,
keeps the cursor consistent and strictly advances it. -/
theorem next_token_shape (l : Lexer) (hwf : WF l) (r : Except Unit TokenType) (l' : Lexer)
    (h : next_token l = some (r, l')) :
    (∃ t, r = Except.ok t) ∧ WF l' ∧ l'.input = l.input ∧ l.position < l'.position := by
  rw [next_token_skip l hwf] at h
  have hm := next_token_shape_nonws (skip_whitespace l) (skip_whitespace_WF l hwf)
    (skip_whitespace_not_ws l hwf) r l' h
  refine ⟨hm.1, hm.2.1, ?_, ?_⟩
  · rw [hm.2.2.1, skip_whitespace_input l hwf]
  · exact Nat.lt_of_le_of_lt (skip_whitespace_pos_ge l hwf) hm.2.2.2.1

/-- On a buffer without embedded 0 bytes, producing `Eof` means the
cursor has moved past the end of the buffer. -/
theorem next_token_eof_past (l : Lexer) (hwf : WF l) (h0 : (0 : Nat) ∉ l.input) (l' : Lexer)
    (h : next_token l = some (Except.ok TokenType.Eof, l')) :
    l.input.length ≤ l'.position ∧ WF l' ∧ l'.input = l.input := by
  rw [next_token_skip l hwf] at h
  have hm := next_token_shape_nonws (skip_whitespace l) (skip_whitespace_WF l hwf)
    (skip_whitespace_not_ws l hwf) _ l' h
  have hch0 : (skip_whitespace l).ch = 0 := hm.2.2.2.2 rfl
  have hwfm := skip_whitespace_WF l hwf
  have hinp := skip_whitespace_input l hwf
  have hge : (skip_whitespace l).input.length ≤ (skip_whitespace l).position := by
    by_contra hlt
    rw [Nat.not_le] at hlt
    have hmem : (skip_whitespace l).ch = (skip_whitespace l).input[(skip_whitespace l).position] := by
      rw [hwfm.2]; unfold chAt; rw [if_pos hlt]; exact List.getD_eq_getElem _ _ hlt
    apply h0
    rw [← hinp]
    rw [hch0] at hmem
    exact hmem ▸ List.getElem_mem hlt
  refine ⟨?_, hm.2.1, by rw [hm.2.2.1, hinp]⟩
  rw [hinp] at hge
  have := hm.2.2.2.1
  omega

/-- Once the cursor is past the end of the buffer, every further call
returns `Eof` and the cursor stays past the end. -/
theorem eof_forever (n : Nat) :
    ∀ (l : Lexer), WF l → l.input.length ≤ l.position →
      ∃ l', nextTokenK n l = some (Except.ok TokenType.Eof, l') ∧
        l'.input = l.input ∧ WF l' ∧ l'.input.length ≤ l'.position := by
  induction n with
  | zero =>
    intro l hwf hpos
    refine ⟨read_char l, next_token_eof_state l hwf hpos, rfl, read_char_WF l, ?_⟩
    show (read_char l).input.length ≤ l.read_position
    have := hwf.1
    simp only [read_char_input]
    omega
  | succ k ih =>
    intro l hwf hpos
    obtain ⟨l2, h2, hinp2, hwf2, hpos2⟩ := ih (read_char l) (read_char_WF l) (by
      show (read_char l).input.length ≤ l.read_position
      have := hwf.1
      simp only [read_char_input]
      omega)
    refine ⟨l2, ?_, by rw [hinp2, read_char_input], hwf2, hpos2⟩
    simp only [nextTokenK, next_token_eof_state l hwf hpos]
    exact h2

/-- On a consistent state the current byte is the sentinel or a buffer
byte. -/
theorem WF_ch_zero_or_mem (m : Lexer) (hwf : WF m) : m.ch = 0 ∨ m.ch ∈ m.input := by
  by_cases hlt : m.position < m.input.length
  · right
    have hgd : m.ch = m.input[m.position] := by
      rw [hwf.2]; unfold chAt; rw [if_pos hlt]; exact List.getD_eq_getElem _ _ hlt
    exact hgd ▸ List.getElem_mem hlt
  · left
    rw [hwf.2]; unfold chAt; rw [if_neg hlt]

/-- On a buffer all of whose bytes are recognized, `next_token` never
hits the `unreachable!` arm. -/
theorem next_token_some_of_recognized (l : Lexer) (hwf : WF l)
    (hrec : ∀ b ∈ l.input, recognized b = true) :
    ∃ r l', next_token l = some (r, l') := by
  rw [next_token_skip l hwf]
  have hwfm : WF (skip_whitespace l) := skip_whitespace_WF l hwf
  by_cases h0 : (skip_whitespace l).ch = 0
  · exact ⟨_, _, next_token_eof_ch _ h0⟩
  have hrecm : recognized (skip_whitespace l).ch = true := by
    rcases WF_ch_zero_or_mem (skip_whitespace l) hwfm with hz | hmem
    · exact absurd hz h0
    · apply hrec
      rw [← skip_whitespace_input l hwf]
      exact hmem
  by_cases hid : is_ident_char (skip_whitespace l).ch = true
  · exact ⟨_, _, next_token_ident _ hid⟩
  by_cases hdig : is_ascii_digit (skip_whitespace l).ch = true
  · exact ⟨_, _, next_token_int _ hdig⟩
  have hws := skip_whitespace_not_ws l hwf
  have hws' : ¬((skip_whitespace l).ch = 9 ∨ (skip_whitespace l).ch = 10 ∨
      (skip_whitespace l).ch = 12 ∨ (skip_whitespace l).ch = 13 ∨
      (skip_whitespace l).ch = 32) := by
    rw [← is_ws_iff]
    simp [hws]
  have hid' := hid
  rw [is_ident_char_iff] at hid'
  have hdig' := hdig
  rw [is_digit_iff] at hdig'
  have h1 := (recognized_iff (skip_whitespace l).ch).mp hrecm
  have hlit : (skip_whitespace l).ch = 123 ∨ (skip_whitespace l).ch = 125 ∨
      (skip_whitespace l).ch = 40 ∨ (skip_whitespace l).ch = 41 ∨
      (skip_whitespace l).ch = 44 ∨ (skip_whitespace l).ch = 59 ∨
      (skip_whitespace l).ch = 43 ∨ (skip_whitespace l).ch = 45 ∨
      (skip_whitespace l).ch = 33 ∨ (skip_whitespace l).ch = 62 ∨
      (skip_whitespace l).ch = 60 ∨ (skip_whitespace l).ch = 42 ∨
      (skip_whitespace l).ch = 47 ∨ (skip_whitespace l).ch = 61 := by omega
  rcases hlit with hc | hc | hc | hc | hc | hc | hc | hc | hc | hc | hc | hc | hc | hc
  · exact ⟨_, _, next_token_single _ 123 TokenType.LSquirly hc (by decide)⟩
  · exact ⟨_, _, next_token_single _ 125 TokenType.RSquirly hc (by decide)⟩
  · exact ⟨_, _, next_token_single _ 40 TokenType.Lparen hc (by decide)⟩
  · exact ⟨_, _, next_token_single _ 41 TokenType.Rparen hc (by decide)⟩
  · exact ⟨_, _, next_token_single _ 44 TokenType.Comma hc (by decide)⟩
  · exact ⟨_, _, next_token_single _ 59 TokenType.Semicolon hc (by decide)⟩
  · exact ⟨_, _, next_token_single _ 43 TokenType.Plus hc (by decide)⟩
  · exact ⟨_, _, next_token_single _ 45 TokenType.Dash hc (by decide)⟩
  · by_cases hpk : peek (skip_whitespace l) = 61
    · exact ⟨_, _, next_token_noteq _ hc hpk⟩
    · exact ⟨_, _, next_token_bang _ hc hpk⟩
  · exact ⟨_, _, next_token_single _ 62 TokenType.GreaterThan hc (by decide)⟩
  · exact ⟨_, _, next_token_single _ 60 TokenType.LessThan hc (by decide)⟩
  · exact ⟨_, _, next_token_single _ 42 TokenType.Asterisk hc (by decide)⟩
  · exact ⟨_, _, next_token_single _ 47 TokenType.ForwardSlash hc (by decide)⟩
  · by_cases hpk : peek (skip_whitespace l) = 61
    · exact ⟨_, _, next_token_equal _ hc hpk⟩
    · exact ⟨_, _, next_token_assign _ hc hpk⟩

/-- On a buffer all of whose bytes are recognized, iterating
`next_token` reaches `Eof` after at most one call per remaining buffer
byte. -/
theorem reach_eof (l : Lexer) (hwf : WF l) (hrec : ∀ b ∈ l.input, recognized b = true) :
    ∃ n l', n ≤ l.input.length - l.position ∧
      nextTokenK n l = some (Except.ok TokenType.Eof, l') := by
  by_cases hpos : l.input.length ≤ l.position
  · exact ⟨0, read_char l, by omega, next_token_eof_state l hwf hpos⟩
  · obtain ⟨r, l2, h⟩ := next_token_some_of_recognized l hwf hrec
    obtain ⟨⟨t, hok⟩, hwf2, hinp2, hlt⟩ := next_token_shape l hwf r l2 h
    have hrec2 : ∀ b ∈ l2.input, recognized b = true := by rw [hinp2]; exact hrec
    obtain ⟨n, l3, hn, hrun⟩ := reach_eof l2 hwf2 hrec2
    refine ⟨n + 1, l3, ?_, ?_⟩
    · rw [hinp2] at hn
      omega
    · simp only [nextTokenK, h]
      exact hrun
termination_by l.input.length - l.position
decreasing_by
  rw [hinp2]
  omega

/-! ### Claims -/

/-- Claim C1: the spec requires an input byte outside the recognized
classes (not whitespace, not structural/operator, not letter/underscore
/digit, not the 0 sentinel) to yield an `Illegal` token rather than
abort the process.  The code instead hits `unreachable!` and aborts:
on the input consisting of the single byte 64 (`@`), `next_token`
is the modelled panic `none`, and no `Illegal` token is ever built. -/
theorem C1_unrecognized_byte_aborts : next_token (Lexer.new [64]) = none :=
  next_token_illegal (Lexer.new [64]) (by decide) (by decide)

/-- Claim C2 counterexample: on the input `[0, 97]` (a NUL byte
followed by `a` — a legal Rust `String`), the first call produces the
end-of-input token, yet the next call produces `Ident "a"`, not
end-of-input.  So "once Eof has been produced every subsequent call
returns Eof" fails as stated. -/
theorem C2_counterexample :
    tokenize 2 (Lexer.new [0, 97])
      = [some (Except.ok TokenType.Eof), some (Except.ok (TokenType.Ident [97]))] := by
  simp [tokenize, next_token, Lexer.new, read_char, skip_whitespace, peek, read_ident,
    read_int, read_ident_loop, read_int_loop, lookup_ident, is_ascii_whitespace,
    is_ident_char, is_ascii_alphabetic, is_ascii_digit]

/-- Claim C2 (amended: for inputs containing no 0 byte): once
`next_token` has produced the end-of-input token, every subsequent
call — any number of them — again returns the end-of-input token and
never an error. -/
theorem C2_eof_persists (l : Lexer) (hwf : WF l) (h0 : (0 : Nat) ∉ l.input) (l1 : Lexer)
    (h : next_token l = some (Except.ok TokenType.Eof, l1)) (n : Nat) :
    ∃ l2, nextTokenK n l1 = some (Except.ok TokenType.Eof, l2) := by
  obtain ⟨hge, hwf1, hinp1⟩ := next_token_eof_past l hwf h0 l1 h
  obtain ⟨l2, hrun, _, _, _⟩ := eof_forever n l1 hwf1 (by rw [hinp1]; exact hge)
  exact ⟨l2, hrun⟩

theorem C2_eof_persists_witness :
    ∃ l2, nextTokenK 5 (read_char (Lexer.new [])) = some (Except.ok TokenType.Eof, l2) :=
  C2_eof_persists (Lexer.new []) (by decide) (by decide) (read_char (Lexer.new []))
    (next_token_eof_ch (Lexer.new []) (by decide)) 5

/-- Claim C3: `==` and `!=` are single two-character tokens; a `=` or
`!` not followed by `=` yields `Assign` resp. `Bang`; `<=` and `>=`
are not merged — they scan as `LessThan` (resp. `GreaterThan`)
followed by `Assign`. -/
theorem C3_operator_merging :
    (∀ l : Lexer, l.ch = 61 → peek l = 61 →
      next_token l = some (Except.ok TokenType.Equal, read_char (read_char l))) ∧
    (∀ l : Lexer, l.ch = 61 → ¬ peek l = 61 →
      next_token l = some (Except.ok TokenType.Assign, read_char l)) ∧
    (∀ l : Lexer, l.ch = 33 → peek l = 61 →
      next_token l = some (Except.ok TokenType.NotEqual, read_char (read_char l))) ∧
    (∀ l : Lexer, l.ch = 33 → ¬ peek l = 61 →
      next_token l = some (Except.ok TokenType.Bang, read_char l)) ∧
    tokenize 3 (Lexer.new [60, 61]) = [some (Except.ok TokenType.LessThan),
      some (Except.ok TokenType.Assign), some (Except.ok TokenType.Eof)] ∧
    tokenize 3 (Lexer.new [62, 61]) = [some (Except.ok TokenType.GreaterThan),
      some (Except.ok TokenType.Assign), some (Except.ok TokenType.Eof)] := by
  refine ⟨next_token_equal, next_token_assign, next_token_noteq, next_token_bang, ?_, ?_⟩ <;>
    simp [tokenize, next_token, Lexer.new, read_char, skip_whitespace, peek, read_ident,
      read_int, read_ident_loop, read_int_loop, lookup_ident, is_ascii_whitespace,
      is_ident_char, is_ascii_alphabetic, is_ascii_digit]

theorem C3_operator_merging_witness :
    next_token (Lexer.new [61, 61])
      = some (Except.ok TokenType.Equal, read_char (read_char (Lexer.new [61, 61]))) :=
  C3_operator_merging.1 (Lexer.new [61, 61]) (by decide) (by decide)

/-- Claim C4: on any nonempty all-digit input, the first call returns
one integer token carrying the input verbatim and the second call
returns end-of-input. -/
theorem C4_all_digit_input (ds : List Nat) (hne : ds ≠ [])
    (hdig : ∀ b ∈ ds, is_ascii_digit b = true) :
    ∃ l1, next_token (Lexer.new ds) = some (Except.ok (TokenType.Int ds), l1) ∧
      ∃ l2, next_token l1 = some (Except.ok TokenType.Eof, l2) := by
  have hwf0 := WF_new ds
  have hlen : 0 < ds.length := by
    cases ds with
    | nil => exact absurd rfl hne
    | cons a t => simp
  have hch0 : (Lexer.new ds).ch = ds.getD 0 0 := by
    show (if 0 < ds.length then ds.getD 0 0 else 0) = ds.getD 0 0
    rw [if_pos hlen]
  have hmem : ds.getD 0 0 ∈ ds := by
    rw [List.getD_eq_getElem _ _ hlen]
    exact List.getElem_mem hlen
  have hdig0 : is_ascii_digit (Lexer.new ds).ch = true := by
    rw [hch0]
    exact hdig _ hmem
  have h := next_token_int (Lexer.new ds) hdig0
  rw [read_int_spec (Lexer.new ds) hwf0] at h
  have hpos0 : (Lexer.new ds).position = 0 := rfl
  have hinp0 : (Lexer.new ds).input = ds := rfl
  rw [hpos0, hinp0, List.drop_zero, List.takeWhile_eq_self_iff.mpr hdig] at h
  simp only [Nat.zero_add] at h
  refine ⟨_, h, read_char _, next_token_eof_ch _ ?_⟩
  show chAt ds ds.length = 0
  unfold chAt
  rw [if_neg (by omega)]

theorem C4_all_digit_input_witness :
    ∃ l1, next_token (Lexer.new [49, 50]) = some (Except.ok (TokenType.Int [49, 50]), l1) ∧
      ∃ l2, next_token l1 = some (Except.ok TokenType.Eof, l2) :=
  C4_all_digit_input [49, 50] (by decide) (by decide)

/-- Claim C5: on a letter/underscore byte, `next_token` scans the
maximal letter/underscore run and classifies it with the keyword
table: the seven keyword spellings yield their keyword tokens, and
every other text yields `Ident` carrying exactly that text. -/
theorem C5_keyword_classification (l : Lexer) (hwf : WF l) (hid : is_ident_char l.ch = true) :
    next_token l = some (Except.ok
        (lookup_ident ((l.input.drop l.position).takeWhile is_ident_char)),
        (read_ident l).2) ∧
    lookup_ident [102, 110] = TokenType.Function ∧
    lookup_ident [108, 101, 116] = TokenType.Let ∧
    lookup_ident [105, 102] = TokenType.If ∧
    lookup_ident [101, 108, 115, 101] = TokenType.Else ∧
    lookup_ident [114, 101, 116, 117, 114, 110] = TokenType.Return ∧
    lookup_ident [116, 114, 117, 101] = TokenType.True ∧
    lookup_ident [102, 97, 108, 115, 101] = TokenType.False ∧
    (∀ s : List Nat, s ≠ [102, 110] → s ≠ [108, 101, 116] → s ≠ [105, 102] →
      s ≠ [102, 97, 108, 115, 101] → s ≠ [116, 114, 117, 101] →
      s ≠ [114, 101, 116, 117, 114, 110] → s ≠ [101, 108, 115, 101] →
      lookup_ident s = TokenType.Ident s) := by
  refine ⟨?_, by decide, by decide, by decide, by decide, by decide, by decide, by decide, ?_⟩
  · have h1 : (read_ident l).1 = (l.input.drop l.position).takeWhile is_ident_char := by
      rw [read_ident_spec l hwf]
    rw [next_token_ident l hid, h1]
  · intro s h1 h2 h3 h4 h5 h6 h7
    unfold lookup_ident
    rw [if_neg h1, if_neg h2, if_neg h3, if_neg h4, if_neg h5, if_neg h6, if_neg h7]

theorem C5_keyword_classification_witness :
    next_token (Lexer.new [97]) = some (Except.ok
        (lookup_ident (([97].drop 0).takeWhile is_ident_char)),
        (read_ident (Lexer.new [97])).2) :=
  (C5_keyword_classification (Lexer.new [97]) (by decide) (by decide)).1

/-- Claim C6: `read_ident`, on a cursor resting on a letter or
underscore, advances while and only while the current byte is a letter
or underscore (the scanned text is the maximal such run and the new
cursor sits just past it); an ASCII digit is not a letter/underscore
byte, so a digit ends the identifier — on input `a1` the identifier
token carries only `a` and the digit starts the next token. -/
theorem C6_read_ident_stops_at_digit (l : Lexer) (hwf : WF l)
    (hid : is_ident_char l.ch = true) :
    (read_ident l).1 = (l.input.drop l.position).takeWhile is_ident_char ∧
    (read_ident l).2.position
      = l.position + ((l.input.drop l.position).takeWhile is_ident_char).length ∧
    (∀ c, is_ascii_digit c = true → is_ident_char c = false) ∧
    tokenize 2 (Lexer.new [97, 49])
      = [some (Except.ok (TokenType.Ident [97])), some (Except.ok (TokenType.Int [49]))] := by
  refine ⟨?_, ?_, ?_, ?_⟩
  · rw [read_ident_spec l hwf]
  · rw [read_ident_spec l hwf]
  · intro c hc
    have := (is_digit_iff c).mp hc
    exact identc_eq_false c (by omega)
  · simp [tokenize, next_token, Lexer.new, read_char, skip_whitespace, peek, read_ident,
      read_int, read_ident_loop, read_int_loop, lookup_ident, is_ascii_whitespace,
      is_ident_char, is_ascii_alphabetic, is_ascii_digit]

theorem C6_read_ident_stops_at_digit_witness :
    (read_ident (Lexer.new [97, 49])).1 = ([97, 49].drop 0).takeWhile is_ident_char :=
  (C6_read_ident_stops_at_digit (Lexer.new [97, 49]) (by decide) (by decide)).1

/-- Claim C7 counterexample: byte 12 (form feed) is outside the four
claimed whitespace bytes (space, tab, newline, carriage return), yet
`skip_whitespace` advances across it instead of stopping, because
Rust's `u8::is_ascii_whitespace` also matches form feed. -/
theorem C7_counterexample :
    (skip_whitespace (Lexer.new [12])).position = 1 ∧
      ¬(12 = 32 ∨ 12 = 9 ∨ 12 = 10 ∨ 12 = 13) := by
  constructor
  · simp [skip_whitespace, Lexer.new, read_char, is_ascii_whitespace]
  · decide

/-- Claim C7 (amended: the whitespace set is the five bytes matched by
Rust's `u8::is_ascii_whitespace` — space, tab, newline, carriage
return, and also form feed 12): skip-whitespace advances while and
only while the current byte is in that set, stopping at every byte
outside it; a leading whitespace byte never changes which token is
produced next, and the texts the identifier and integer scanners
produce contain no whitespace byte. -/
theorem C7_whitespace_skipping (l : Lexer) (hwf : WF l) :
    (skip_whitespace l).position
        = l.position + ((l.input.drop l.position).takeWhile is_ascii_whitespace).length ∧
    (skip_whitespace l).input = l.input ∧
    is_ascii_whitespace (skip_whitespace l).ch = false ∧
    (∀ c, is_ascii_whitespace c = true ↔ (c = 32 ∨ c = 9 ∨ c = 10 ∨ c = 13 ∨ c = 12)) ∧
    (is_ascii_whitespace l.ch = true → next_token l = next_token (read_char l)) ∧
    (∀ b ∈ (read_ident l).1, is_ascii_whitespace b = false) ∧
    (∀ b ∈ (read_int l).1, is_ascii_whitespace b = false) := by
  refine ⟨?_, skip_whitespace_input l hwf, skip_whitespace_not_ws l hwf, ?_, ?_, ?_, ?_⟩
  · rw [skip_whitespace_spec l hwf]
  · intro c
    rw [is_ws_iff]
    constructor <;> (intro h; omega)
  · intro hws
    simp only [next_token]
    rw [skip_whitespace_eq l, if_pos hws]
  · intro b hb
    have h1 : (read_ident l).1 = (l.input.drop l.position).takeWhile is_ident_char := by
      rw [read_ident_spec l hwf]
    rw [h1] at hb
    have hbid := List.mem_takeWhile_imp hb
    have := (is_ident_char_iff b).mp hbid
    exact ws_eq_false b (by omega)
  · intro b hb
    have h1 : (read_int l).1 = (l.input.drop l.position).takeWhile is_ascii_digit := by
      rw [read_int_spec l hwf]
    rw [h1] at hb
    have hbd := List.mem_takeWhile_imp hb
    have := (is_digit_iff b).mp hbd
    exact ws_eq_false b (by omega)

theorem C7_whitespace_skipping_witness :
    (skip_whitespace (Lexer.new [32, 32, 59])).position
      = 0 + (([32, 32, 59].drop 0).takeWhile is_ascii_whitespace).length :=
  (C7_whitespace_skipping (Lexer.new [32, 32, 59]) (by decide)).1

/-- Claim C8: after any `read_char` the cursor satisfies
`read_position = position + 1` and `ch` is the byte at `position`
(in bounds) or the 0 sentinel (out of bounds); the buffer is
untouched; and `peek` returns the byte at `read_position` (or 0 out of
bounds) — being a pure function of the state it moves nothing. -/
theorem C8_cursor_invariant (l : Lexer) :
    (read_char l).read_position = (read_char l).position + 1 ∧
    ((read_char l).position < (read_char l).input.length →
      (read_char l).ch = (read_char l).input.getD (read_char l).position 0) ∧
    ((read_char l).input.length ≤ (read_char l).position → (read_char l).ch = 0) ∧
    (read_char l).input = l.input ∧
    (l.read_position < l.input.length → peek l = l.input.getD l.read_position 0) ∧
    (l.input.length ≤ l.read_position → peek l = 0) := by
  refine ⟨rfl, ?_, ?_, rfl, ?_, ?_⟩
  · intro h
    have h' : l.read_position < l.input.length := h
    show (if l.read_position < l.input.length then l.input.getD l.read_position 0 else 0)
      = l.input.getD l.read_position 0
    rw [if_pos h']
  · intro h
    have h' : l.input.length ≤ l.read_position := h
    show (if l.read_position < l.input.length then l.input.getD l.read_position 0 else 0) = 0
    rw [if_neg (by omega)]
  · intro h
    show (if l.input.length ≤ l.read_position then 0 else l.input.getD l.read_position 0)
      = l.input.getD l.read_position 0
    rw [if_neg (by omega)]
  · intro h
    show (if l.input.length ≤ l.read_position then 0 else l.input.getD l.read_position 0) = 0
    rw [if_pos h]

theorem C8_cursor_invariant_witness :
    (read_char (Lexer.new [5, 6])).ch = [5, 6].getD 1 0 :=
  (C8_cursor_invariant (Lexer.new [5, 6])).2.1 (by decide)

/-- Claim C9 counterexample: on the input consisting of the single
byte 64 (`@`), the consumer's very first call aborts the process (the
modelled `none`), so the stream is not terminated by an end-of-input
token. -/
theorem C9_counterexample : tokenize 1 (Lexer.new [64]) = [none] := by
  simp only [tokenize]
  rw [next_token_illegal (Lexer.new [64]) (by decide) (by decide)]

/-- Claim C9 (amended: for inputs all of whose bytes are in the
recognized classes): every call terminates — the three scanning loops
are well-founded, which is what lets their Lean counterparts exist at
all — and iterating `next_token` from a fresh scanner reaches the
end-of-input token within `input.length + 1` calls, so the caller
receives a finite token stream terminated by end-of-input. -/
theorem C9_finite_stream (input : List Nat) (hrec : ∀ b ∈ input, recognized b = true) :
    ∃ n l', n ≤ input.length ∧
      nextTokenK n (Lexer.new input) = some (Except.ok TokenType.Eof, l') := by
  obtain ⟨n, l', hn, hrun⟩ := reach_eof (Lexer.new input) (WF_new input) hrec
  refine ⟨n, l', ?_, hrun⟩
  have h2 : n ≤ input.length - 0 := hn
  omega

theorem C9_finite_stream_witness :
    ∃ n l', n ≤ [40, 41].length ∧
      nextTokenK n (Lexer.new [40, 41]) = some (Except.ok TokenType.Eof, l') :=
  C9_finite_stream [40, 41] (by decide)

/-- Claim C10: although `next_token`'s public type is a `Result`, the
error channel is never used: whenever the function returns at all (the
`unreachable!` abort excepted, modelled as `none`), the value is
`Ok`. -/
theorem C10_result_always_ok (l : Lexer) (hwf : WF l) (r : Except Unit TokenType)
    (l' : Lexer) (h : next_token l = some (r, l')) : ∃ t, r = Except.ok t :=
  (next_token_shape l hwf r l' h).1

theorem C10_result_always_ok_witness :
    ∃ t, (Except.ok TokenType.Semicolon : Except Unit TokenType) = Except.ok t :=
  C10_result_always_ok (Lexer.new [59]) (by decide) (Except.ok TokenType.Semicolon)
    (read_char (Lexer.new [59]))
    (next_token_single (Lexer.new [59]) 59 TokenType.Semicolon (by decide) (by decide))

end InterpLexer
